import Mathlib

/-!
# Verification of `src/learning/nnet/net_layer.rs` (rusty-machine neural-net layers)

Shallow embedding of the `NetLayer` trait, the `Linear` layer and the blanket
activation-function layer.  Matrices (`rulinalg`-style dense `Matrix<f64>`) are
modelled as a row-major list of rows over `ℚ` together with explicit row/column
counts; operations that panic in the Rust library on a dimension mismatch
return `Option` and yield `none` exactly where the library would abort.
-/

/-- Dense matrix: row/column counts plus row-major data (list of rows). -/
structure Mat where
  rows : Nat
  cols : Nat
  data : List (List ℚ)
deriving DecidableEq

namespace Mat

/-- Well-formedness: the data really has `rows` rows, each of length `cols`. -/
def WF (m : Mat) : Prop :=
  m.data.length = m.rows ∧ ∀ r ∈ m.data, r.length = m.cols

instance (m : Mat) : Decidable m.WF := by
  unfold WF; infer_instance

/-- `Matrix::<f64>::ones(n, m)`: the all-ones matrix. -/
def ones (n m : Nat) : Mat :=
  ⟨n, m, List.replicate n (List.replicate m 1)⟩

/-- Element at row `r`, column `c` (0 outside the stored data). -/
def entry (m : Mat) (r c : Nat) : ℚ :=
  (m.data.getD r []).getD c 0

/-- `hcat`: horizontal concatenation; the library asserts equal row counts. -/
def hcat (a b : Mat) : Option Mat :=
  if a.rows = b.rows then
    some ⟨a.rows, a.cols + b.cols, List.zipWith (· ++ ·) a.data b.data⟩
  else none

/-- `transpose`. -/
def transpose (m : Mat) : Mat :=
  ⟨m.cols, m.rows, (List.range m.cols).map (fun j => m.data.map (fun r => r.getD j 0))⟩

/-- Dot product of two equally long lists. -/
def dot (xs ys : List ℚ) : ℚ :=
  (List.zipWith (· * ·) xs ys).sum

/-- Matrix product; the library asserts `a.cols = b.rows`. -/
def mul (a b : Mat) : Option Mat :=
  if a.cols = b.rows then
    some ⟨a.rows, b.cols,
      a.data.map (fun row => (List.range b.cols).map (fun j => dot row (b.data.map (fun r => r.getD j 0))))⟩
  else none

/-- `select_rows`: the sub-matrix made of the given row indices. -/
def select_rows (m : Mat) (idxs : List Nat) : Mat :=
  ⟨idxs.length, m.cols, idxs.map (fun i => m.data.getD i [])⟩

/-- `elemul`: elementwise product; the library asserts equal shapes. -/
def elemul (a b : Mat) : Option Mat :=
  if a.rows = b.rows ∧ a.cols = b.cols then
    some ⟨a.rows, a.cols, List.zipWith (List.zipWith (· * ·)) a.data b.data⟩
  else none

/-- `apply`: apply a scalar function to every element. -/
def apply (m : Mat) (f : ℚ → ℚ) : Mat :=
  ⟨m.rows, m.cols, m.data.map (List.map f)⟩

end Mat

/-- The `Linear` layer descriptor: `input_size`, `output_size`, `has_bias`. -/
structure Linear where
  input_size : Nat
  output_size : Nat
  has_bias : Bool
deriving DecidableEq

namespace Linear

/-- `Linear::new`: bias-enabled constructor; stores `input_size + 1`. -/
def new (input_size output_size : Nat) : Linear :=
  ⟨input_size + 1, output_size, true⟩

/-- `Linear::without_bias`. -/
def without_bias (input_size output_size : Nat) : Linear :=
  ⟨input_size, output_size, false⟩

/-- `Linear::param_shape`: `(input_size, output_size)`. -/
def param_shape (l : Linear) : Nat × Nat :=
  (l.input_size, l.output_size)

/-- `NetLayer::num_params` default implementation: rows × cols of `param_shape`. -/
def num_params (l : Linear) : Nat :=
  l.param_shape.1 * l.param_shape.2

/-- `Linear::forward`: with bias, `input.hcat(ones(N,1)) * params`;
without bias, `input * params`.  `none` models the panic on a dimension
mismatch (the `debug_assert_eq!` restates the multiplication's own check). -/
def forward (l : Linear) (input : Mat) (params : Mat) : Option Mat :=
  if l.has_bias then
    (input.hcat (Mat.ones input.rows 1)).bind (fun a => a.mul params)
  else
    input.mul params

/-- `Linear::back_input`: `out_grad * params^T`, dropping the last row of
`params` first when bias is enabled (`select_rows(0..params.rows()-1)`).
The `input` argument is ignored (`_` in the source).  When bias is enabled and
`params.rows() = 0`, `0..params.rows()-1` underflows `usize` and the call
aborts, modelled as `none`. -/
def back_input (l : Linear) (out_grad : Mat) (_input : Mat) (params : Mat) : Option Mat :=
  if l.has_bias then
    if params.rows = 0 then none
    else out_grad.mul ((params.select_rows (List.range (params.rows - 1))).transpose)
  else
    out_grad.mul params.transpose

/-- `Linear::back_params`: after `assert_eq!(input.rows(), out_grad.rows())`,
`input.hcat(ones(N,1)).transpose() * out_grad` with bias, else
`input.transpose() * out_grad`.  The `params` argument is ignored. -/
def back_params (l : Linear) (out_grad : Mat) (input : Mat) (_params : Mat) : Option Mat :=
  if input.rows = out_grad.rows then
    if l.has_bias then
      (input.hcat (Mat.ones input.rows 1)).bind (fun a => a.transpose.mul out_grad)
    else
      input.transpose.mul out_grad
  else none

end Linear

/-- `Linear::default_params` — Xavier initialization.  The hidden
thread-local RNG (`rand::thread_rng()`) is modelled as an infinite stream
`z : ℕ → ℝ` of standard-normal draws together with a cursor `pos` (the
thread-local state: how many draws have been consumed so far); sampling
`Normal::new(0, σ)` takes the next draw `z pos` and returns `0 + σ * z pos`,
advancing the cursor.  A call returns the sampled list together with the
advanced cursor. -/
noncomputable def Linear.xavier_std (l : Linear) : ℝ :=
  Real.sqrt (2 / ((l.input_size : ℝ) + (l.output_size : ℝ)))

/-- `(0..input_size*output_size).map(|_| distro.sample(&mut rng)).collect()`,
with the thread-local RNG state made explicit (see `Linear.xavier_std`). -/
noncomputable def Linear.default_params (l : Linear) (z : Nat → ℝ) (pos : Nat) :
    List ℝ × Nat :=
  ((List.range (l.input_size * l.output_size)).map
      (fun k => 0 + l.xavier_std * z (pos + k)),
    pos + l.input_size * l.output_size)

/-- The `ActivationFunc` capability: a pure scalar function and its
derivative.  Any such capability becomes a `NetLayer` through the blanket
`impl<T: ActivationFunc + Debug> NetLayer for T`. -/
structure ActivationFunc where
  func : ℚ → ℚ
  func_grad : ℚ → ℚ

namespace ActivationFunc

/-- Blanket `forward`: `input.clone().apply(&T::func)`; `params` is ignored. -/
def forward (A : ActivationFunc) (input : Mat) (_params : Mat) : Mat :=
  input.apply A.func

/-- Blanket `back_input`: `out_grad.elemul(in_grad)` where `in_grad` is
`Matrix::new(input.rows(), input.cols(), input.iter().map(func_grad))`,
i.e. `func_grad` applied elementwise to `input`. -/
def back_input (A : ActivationFunc) (out_grad : Mat) (input : Mat) (_params : Mat) :
    Option Mat :=
  out_grad.elemul (input.apply A.func_grad)

/-- Blanket `back_params`: `Matrix::new(0, 0, Vec::new())`. -/
def back_params (_A : ActivationFunc) (_out_grad _input _params : Mat) : Mat :=
  ⟨0, 0, []⟩

/-- Blanket `default_params`: `Vec::new()`. -/
def default_params (_A : ActivationFunc) : List ℚ :=
  []

/-- Blanket `param_shape`: `(0, 0)`. -/
def param_shape (_A : ActivationFunc) : Nat × Nat :=
  (0, 0)

/-- `NetLayer::num_params` default implementation for an activation layer. -/
def num_params (A : ActivationFunc) : Nat :=
  A.param_shape.1 * A.param_shape.2

end ActivationFunc

/-! ## Helper lemmas -/

theorem zipWith_append_ones (l : List (List ℚ)) :
    List.zipWith (· ++ ·) l (List.replicate l.length [(1 : ℚ)])
      = l.map (fun r => r ++ [1]) := by
  induction l with
  | nil => rfl
  | cons x xs ih => simp [List.replicate_succ, ih]

/-- Appending the ones column: for a well-shaped matrix, `hcat` with
`ones(rows, 1)` succeeds and appends a literal `1` to every row, giving an
`N × (cols+1)` matrix. -/
theorem hcat_ones (m : Mat) (h : m.data.length = m.rows) :
    m.hcat (Mat.ones m.rows 1)
      = some ⟨m.rows, m.cols + 1, m.data.map (fun r => r ++ [1])⟩ := by
  unfold Mat.hcat Mat.ones
  rw [if_pos rfl, ← h]
  rw [show List.replicate 1 (1 : ℚ) = [(1 : ℚ)] from rfl, zipWith_append_ones]

theorem getD_map_map (l : List (List ℚ)) (f : ℚ → ℚ) (r c : Nat)
    (hr : r < l.length) (hc : c < (l.getD r []).length) :
    ((l.map (List.map f)).getD r []).getD c 0 = f ((l.getD r []).getD c 0) := by
  have h1 : (l.map (List.map f)).getD r [] = List.map f (l.getD r []) := by
    rw [List.getD_eq_getElem _ _ (by simpa using hr), List.getD_eq_getElem _ _ hr,
        List.getElem_map]
  rw [h1, List.getD_eq_getElem _ _ (by simpa using hc), List.getD_eq_getElem _ _ hc,
      List.getElem_map]

theorem getD_zipWith_mul (a b : List (List ℚ)) (r c : Nat)
    (hra : r < a.length) (hrb : r < b.length)
    (hca : c < (a.getD r []).length) (hcb : c < (b.getD r []).length) :
    ((List.zipWith (List.zipWith (· * ·)) a b).getD r []).getD c 0
      = (a.getD r []).getD c 0 * (b.getD r []).getD c 0 := by
  have hr' : r < (List.zipWith (List.zipWith (· * ·)) a b).length := by
    rw [List.length_zipWith]; omega
  have h1 : (List.zipWith (List.zipWith (· * ·)) a b).getD r []
      = List.zipWith (· * ·) (a.getD r []) (b.getD r []) := by
    rw [List.getD_eq_getElem _ _ hr', List.getElem_zipWith,
        List.getD_eq_getElem _ _ hra, List.getD_eq_getElem _ _ hrb]
  have hc' : c < (List.zipWith (· * ·) (a.getD r []) (b.getD r [])).length := by
    rw [List.length_zipWith]; omega
  rw [h1, List.getD_eq_getElem _ _ hc', List.getElem_zipWith,
      List.getD_eq_getElem _ _ hca, List.getD_eq_getElem _ _ hcb]

/-- Row lengths of a well-formed matrix, phrased through `getD`. -/
theorem WF.row_length (m : Mat) (hwf : m.WF) (r : Nat) (hr : r < m.rows) :
    (m.data.getD r []).length = m.cols := by
  obtain ⟨hlen, hrow⟩ := hwf
  have hr' : r < m.data.length := by rw [hlen]; exact hr
  rw [List.getD_eq_getElem _ _ hr']
  exact hrow _ (List.getElem_mem hr')

/-! ## Claim theorems -/

/-- Claim C5: `Linear::new(I,O)` stores `input_size = I+1` with `has_bias`
true, `Linear::without_bias(I,O)` stores `input_size = I` with `has_bias`
false, and `param_shape()` is `(stored input_size, output_size)`, i.e.
`(I+1, O)` for the biased layer and `(I, O)` for the unbiased one. -/
theorem C5_constructors_param_shape :
    (∀ I O : Nat, (Linear.new I O).input_size = I + 1
      ∧ (Linear.new I O).output_size = O
      ∧ (Linear.new I O).has_bias = true
      ∧ (Linear.new I O).param_shape = (I + 1, O))
    ∧ (∀ I O : Nat, (Linear.without_bias I O).input_size = I
      ∧ (Linear.without_bias I O).output_size = O
      ∧ (Linear.without_bias I O).has_bias = false
      ∧ (Linear.without_bias I O).param_shape = (I, O))
    ∧ (∀ l : Linear, l.param_shape = (l.input_size, l.output_size)) :=
  ⟨fun _ _ => ⟨rfl, rfl, rfl, rfl⟩, fun _ _ => ⟨rfl, rfl, rfl, rfl⟩, fun _ => rfl⟩

/-- Claim C8: for every activation layer and all arguments, `back_params`
returns the empty 0×0 matrix, `default_params()` is the empty sequence, and
`param_shape()` is `(0,0)` (hence `num_params` is 0). -/
theorem C8_activation_no_params :
    (∀ (A : ActivationFunc) (g i p : Mat),
        A.back_params g i p = ⟨0, 0, []⟩
      ∧ (A.back_params g i p).rows = 0 ∧ (A.back_params g i p).cols = 0)
    ∧ (∀ A : ActivationFunc, A.default_params = [])
    ∧ (∀ A : ActivationFunc, A.param_shape = (0, 0))
    ∧ (∀ A : ActivationFunc, A.num_params = 0) :=
  ⟨fun _ _ _ _ => ⟨rfl, rfl, rfl⟩, fun _ => rfl, fun _ => rfl, fun _ => rfl⟩

/-- Claim C10: `Linear::back_input` ignores its `input` argument: for a fixed
layer, `out_grad` and `params`, any two input matrices give the same result. -/
theorem C10_back_input_ignores_input :
    ∀ (l : Linear) (out_grad params i₁ i₂ : Mat),
      l.back_input out_grad i₁ params = l.back_input out_grad i₂ params :=
  fun _ _ _ _ _ => rfl

/-- Claim C1: with bias, `forward` appends a column of ones (an `N×(I+1)`
augmentation) and multiplies by the parameter matrix; without bias it
multiplies input by params directly; and the two concrete scenarios from the
spec evaluate as stated. -/
theorem C1_linear_forward :
    (∀ (I O : Nat) (input params : Mat),
        (Linear.new I O).forward input params
          = (input.hcat (Mat.ones input.rows 1)).bind (fun a => a.mul params))
    ∧ (∀ input : Mat,
        (input.hcat (Mat.ones input.rows 1)).map Mat.rows = some input.rows
      ∧ (input.hcat (Mat.ones input.rows 1)).map Mat.cols = some (input.cols + 1))
    ∧ (∀ (I O : Nat) (input params : Mat),
        (Linear.without_bias I O).forward input params = input.mul params)
    ∧ (Linear.without_bias 2 3).forward ⟨1, 2, [[1, 2]]⟩ ⟨2, 3, [[1, 0, 0], [0, 1, 0]]⟩
        = some ⟨1, 3, [[1, 2, 0]]⟩
    ∧ (Linear.new 2 1).forward ⟨1, 2, [[2, 3]]⟩ ⟨3, 1, [[1], [1], [1]]⟩
        = some ⟨1, 1, [[6]]⟩ := by
  refine ⟨fun _ _ _ _ => rfl, fun input => ⟨?_, ?_⟩, fun _ _ _ _ => rfl, ?_, ?_⟩
  · simp [Mat.hcat, Mat.ones]
  · simp [Mat.hcat, Mat.ones]
  · norm_num [Linear.forward, Linear.without_bias, Mat.mul, Mat.dot, List.range_succ]
  · norm_num [Linear.forward, Linear.new, Mat.hcat, Mat.ones, Mat.mul, Mat.dot,
      List.range_succ]

/-- Claim C2: `back_input` is `out_grad` times the transpose of `params`,
with the last row of `params` dropped first when bias is enabled; whenever
`out_grad` has as many columns as `params` and `params` has the layer's
stored row count, the result exists and has shape `N × I` (`N` the row count
of `out_grad`, `I` the pre-augmentation input size). -/
theorem C2_linear_back_input (I O : Nat) (out_grad input params : Mat)
    (hg : out_grad.cols = params.cols) :
    (params.rows = I + 1 →
      ((Linear.new I O).back_input out_grad input params
          = out_grad.mul ((params.select_rows (List.range I)).transpose)
        ∧ ∃ d, (Linear.new I O).back_input out_grad input params
            = some ⟨out_grad.rows, I, d⟩))
    ∧ (params.rows = I →
      ((Linear.without_bias I O).back_input out_grad input params
          = out_grad.mul params.transpose
        ∧ ∃ d, (Linear.without_bias I O).back_input out_grad input params
            = some ⟨out_grad.rows, I, d⟩)) := by
  constructor
  · intro hp
    have h0 : params.rows ≠ 0 := by omega
    have hsel : params.rows - 1 = I := by omega
    constructor
    · simp [Linear.back_input, Linear.new, h0, hsel]
    · simp [Linear.back_input, Linear.new, h0, hsel, Mat.mul, Mat.transpose,
        Mat.select_rows, hg]
  · intro hp
    constructor
    · simp [Linear.back_input, Linear.without_bias]
    · simp [Linear.back_input, Linear.without_bias, Mat.mul, Mat.transpose, hg, hp]

/-- Claim C3: under the precondition `input.rows = out_grad.rows` (whose
violation makes `back_params` fail hard), `back_params` is
`(input ++ ones column)^T · out_grad` with bias and `input^T · out_grad`
without, and when the argument shapes match the layer the result's shape is
`param_shape()`. -/
theorem C3_linear_back_params (I O : Nat) (out_grad input params : Mat)
    (h : input.rows = out_grad.rows) :
    ((Linear.new I O).back_params out_grad input params
        = (input.hcat (Mat.ones input.rows 1)).bind (fun a => a.transpose.mul out_grad))
    ∧ (∃ d, (Linear.new I O).back_params out_grad input params
        = some ⟨input.cols + 1, out_grad.cols, d⟩)
    ∧ (input.cols = I → out_grad.cols = O →
        ∃ r, (Linear.new I O).back_params out_grad input params = some r
          ∧ (r.rows, r.cols) = (Linear.new I O).param_shape)
    ∧ ((Linear.without_bias I O).back_params out_grad input params
        = input.transpose.mul out_grad)
    ∧ (∃ d, (Linear.without_bias I O).back_params out_grad input params
        = some ⟨input.cols, out_grad.cols, d⟩)
    ∧ (input.cols = I → out_grad.cols = O →
        ∃ r, (Linear.without_bias I O).back_params out_grad input params = some r
          ∧ (r.rows, r.cols) = (Linear.without_bias I O).param_shape)
    ∧ (∀ (l : Linear) (g' i' p' : Mat), i'.rows ≠ g'.rows →
        l.back_params g' i' p' = none) := by
  have hbias : ∃ d, (Linear.new I O).back_params out_grad input params
      = some ⟨input.cols + 1, out_grad.cols, d⟩ := by
    simp [Linear.back_params, Linear.new, h, Mat.hcat, Mat.ones, Mat.mul, Mat.transpose]
  have hno : ∃ d, (Linear.without_bias I O).back_params out_grad input params
      = some ⟨input.cols, out_grad.cols, d⟩ := by
    simp [Linear.back_params, Linear.without_bias, h, Mat.mul, Mat.transpose]
  refine ⟨by simp [Linear.back_params, Linear.new, h], hbias, ?_, ?_, hno, ?_, ?_⟩
  · intro hI hO
    obtain ⟨d, hd⟩ := hbias
    exact ⟨_, hd, by simp [hI, hO, Linear.param_shape, Linear.new]⟩
  · simp [Linear.back_params, Linear.without_bias, h]
  · intro hI hO
    obtain ⟨d, hd⟩ := hno
    exact ⟨_, hd, by simp [hI, hO, Linear.param_shape, Linear.without_bias]⟩
  · intro l g' i' p' hne
    simp [Linear.back_params, hne]

/-- Claim C7: shape-precondition violations are hard, non-recoverable
failures: each operation yields a result exactly when its shape
preconditions hold, and returns `none` (the modelled abort) otherwise — no
operation computes a numerical result with mismatched shapes. -/
theorem C7_fail_fast :
    (∀ (I O : Nat) (input params : Mat),
        ((Linear.new I O).forward input params).isSome
          ↔ input.cols + 1 = params.rows)
    ∧ (∀ (I O : Nat) (input params : Mat),
        ((Linear.without_bias I O).forward input params).isSome
          ↔ input.cols = params.rows)
    ∧ (∀ (I O : Nat) (out_grad input params : Mat),
        ((Linear.new I O).back_input out_grad input params).isSome
          ↔ (params.rows ≠ 0 ∧ out_grad.cols = params.cols))
    ∧ (∀ (I O : Nat) (out_grad input params : Mat),
        ((Linear.without_bias I O).back_input out_grad input params).isSome
          ↔ out_grad.cols = params.cols)
    ∧ (∀ (l : Linear) (out_grad input params : Mat),
        (l.back_params out_grad input params).isSome ↔ input.rows = out_grad.rows)
    ∧ (∀ (A : ActivationFunc) (out_grad input params : Mat),
        (A.back_input out_grad input params).isSome
          ↔ (out_grad.rows = input.rows ∧ out_grad.cols = input.cols)) := by
  refine ⟨?_, ?_, ?_, ?_, ?_, ?_⟩
  · intro I O input params
    by_cases hc : input.cols + 1 = params.rows <;>
      simp [Linear.forward, Linear.new, Mat.hcat, Mat.ones, Mat.mul, hc]
  · intro I O input params
    by_cases hc : input.cols = params.rows <;>
      simp [Linear.forward, Linear.without_bias, Mat.mul, hc]
  · intro I O out_grad input params
    by_cases h0 : params.rows = 0
    · simp [Linear.back_input, Linear.new, h0]
    · by_cases hc : out_grad.cols = params.cols <;>
        simp [Linear.back_input, Linear.new, h0, hc, Mat.mul, Mat.transpose,
          Mat.select_rows]
  · intro I O out_grad input params
    by_cases hc : out_grad.cols = params.cols <;>
      simp [Linear.back_input, Linear.without_bias, Mat.mul, Mat.transpose, hc]
  · intro l out_grad input params
    by_cases h : input.rows = out_grad.rows
    · rcases l with ⟨ins, outs, hb⟩
      cases hb <;>
        simp [Linear.back_params, h, Mat.hcat, Mat.ones, Mat.mul, Mat.transpose]
    · simp [Linear.back_params, h]
  · intro A out_grad input params
    by_cases hr : out_grad.rows = input.rows
    · by_cases hc : out_grad.cols = input.cols <;>
        simp [ActivationFunc.back_input, Mat.elemul, Mat.apply, hr, hc]
    · simp [ActivationFunc.back_input, Mat.elemul, Mat.apply, hr]

/-- Claim C4: the blanket activation layer's `forward` applies `func`
elementwise to the input and ignores the parameters entirely; `back_input`
is the elementwise product of `out_grad` with `func_grad` applied
elementwise to the original input. -/
theorem C4_activation_forward_back_input (A : ActivationFunc)
    (out_grad input params : Mat) (hwf : input.WF) (hgwf : out_grad.WF)
    (hr : out_grad.rows = input.rows) (hc : out_grad.cols = input.cols) :
    (∀ p₁ p₂ : Mat, A.forward input p₁ = A.forward input p₂)
    ∧ A.forward input params = input.apply A.func
    ∧ (A.forward input params).rows = input.rows
    ∧ (A.forward input params).cols = input.cols
    ∧ (∀ i j : Nat, i < input.rows → j < input.cols →
        (A.forward input params).entry i j = A.func (input.entry i j))
    ∧ A.back_input out_grad input params = out_grad.elemul (input.apply A.func_grad)
    ∧ (∃ r, A.back_input out_grad input params = some r
        ∧ r.rows = input.rows ∧ r.cols = input.cols
        ∧ ∀ i j : Nat, i < input.rows → j < input.cols →
            r.entry i j = out_grad.entry i j * A.func_grad (input.entry i j)) := by
  refine ⟨fun _ _ => rfl, rfl, rfl, rfl, ?_, rfl, ?_⟩
  · intro i j hi hj
    exact getD_map_map input.data A.func i j
      (by rw [hwf.1]; exact hi)
      (by rw [WF.row_length input hwf i hi]; exact hj)
  · have hsome : A.back_input out_grad input params
        = some ⟨out_grad.rows, out_grad.cols,
            List.zipWith (List.zipWith (· * ·)) out_grad.data
              (input.data.map (List.map A.func_grad))⟩ := by
      simp [ActivationFunc.back_input, Mat.elemul, Mat.apply, hr, hc]
    refine ⟨_, hsome, hr, hc, ?_⟩
    intro i j hi hj
    have hia : i < out_grad.data.length := by rw [hgwf.1, hr]; exact hi
    have hib : i < (input.data.map (List.map A.func_grad)).length := by
      rw [List.length_map, hwf.1]; exact hi
    have hja : j < (out_grad.data.getD i []).length := by
      rw [WF.row_length out_grad hgwf i (by rw [hr]; exact hi), hc]; exact hj
    have hjb : j < ((input.data.map (List.map A.func_grad)).getD i []).length := by
      have : (input.data.map (List.map A.func_grad)).getD i []
          = List.map A.func_grad (input.data.getD i []) := by
        rw [List.getD_eq_getElem _ _ hib,
            List.getD_eq_getElem _ _ (by rw [hwf.1]; exact hi), List.getElem_map]
      rw [this, List.length_map, WF.row_length input hwf i hi]; exact hj
    unfold Mat.entry
    simp only
    rw [getD_zipWith_mul out_grad.data (input.data.map (List.map A.func_grad)) i j
        hia hib hja hjb,
      getD_map_map input.data A.func_grad i j (by rw [hwf.1]; exact hi)
        (by rw [WF.row_length input hwf i hi]; exact hj)]

/-- Claim C6: `default_params` returns exactly `input_size*output_size`
scalars — `(I+1)*O` for `Linear::new(I,O)`, `I*O` for `without_bias` — the
k-th being the Gaussian sample `0 + σ·z_(pos+k)` drawn from the k-th fresh
position of the standard-normal stream, where `σ = xavier_std` satisfies
`σ² = 2/(input_size+output_size)` and `σ ≥ 0` (`input_size` already
bias-inflated). -/
theorem C6_default_params (l : Linear) (z : Nat → ℝ) (pos : Nat) :
    ((l.default_params z pos).1).length = l.input_size * l.output_size
    ∧ (∀ I O : Nat,
        (Linear.new I O).input_size * (Linear.new I O).output_size = (I + 1) * O)
    ∧ (∀ I O : Nat,
        (Linear.without_bias I O).input_size * (Linear.without_bias I O).output_size
          = I * O)
    ∧ (∀ k : Nat, k < l.input_size * l.output_size →
        ((l.default_params z pos).1).getD k 0 = 0 + l.xavier_std * z (pos + k))
    ∧ l.xavier_std ^ 2 = 2 / ((l.input_size : ℝ) + (l.output_size : ℝ))
    ∧ 0 ≤ l.xavier_std := by
  refine ⟨by simp [Linear.default_params], fun _ _ => rfl, fun _ _ => rfl, ?_, ?_, ?_⟩
  · intro k hk
    unfold Linear.default_params
    simp only
    rw [List.getD_eq_getElem _ _ (by simpa using hk), List.getElem_map,
        List.getElem_range]
  · exact Real.sq_sqrt (by positivity)
  · exact Real.sqrt_nonneg _

/-- Claim C9 is false on the code: `default_params` reads the hidden
thread-local RNG (`rand::thread_rng()`), which advances across calls, so two
successive calls on the same layer descriptor return different sequences;
here `Linear::new(0,1)` with the standard-normal stream `k ↦ k` yields `[0]`
then `[1]`. -/
theorem C9_counterexample :
    ((Linear.new 0 1).default_params (fun k => (k : ℝ)) 0).1
      ≠ ((Linear.new 0 1).default_params (fun k => (k : ℝ))
          ((Linear.new 0 1).default_params (fun k => (k : ℝ)) 0).2).1 := by
  simp [Linear.default_params, Linear.new, Linear.xavier_std]

/-- Claim C9 amended: `default_params` draws from the hidden thread-local
RNG, modelled as a standard-normal stream plus cursor; the returned sequence
is a function of only the layer sizes and the `input_size*output_size` draws
consumed from the cursor onward — so two calls agree exactly when the hidden
state supplies the same draws — and each call advances the hidden cursor by
`input_size*output_size`. -/
theorem C9_amended_thread_local_rng (l : Linear) (z z' : Nat → ℝ) (pos pos' : Nat)
    (hagree : ∀ k : Nat, k < l.input_size * l.output_size →
      z (pos + k) = z' (pos' + k)) :
    (l.default_params z pos).1 = (l.default_params z' pos').1
    ∧ (l.default_params z pos).2 = pos + l.input_size * l.output_size := by
  refine ⟨?_, rfl⟩
  unfold Linear.default_params
  simp only
  apply List.map_congr_left
  intro k hk
  rw [hagree k (List.mem_range.mp hk)]

/-! ## Witnesses -/

theorem C2_linear_back_input_witness :
    ((⟨1, 1, [[2]]⟩ : Mat).cols = (⟨2, 1, [[5], [7]]⟩ : Mat).cols)
    ∧ (((⟨2, 1, [[5], [7]]⟩ : Mat).rows = 1 + 1 →
        ((Linear.new 1 1).back_input ⟨1, 1, [[2]]⟩ ⟨1, 1, [[9]]⟩ ⟨2, 1, [[5], [7]]⟩
            = Mat.mul ⟨1, 1, [[2]]⟩
                (((⟨2, 1, [[5], [7]]⟩ : Mat).select_rows (List.range 1)).transpose)
          ∧ ∃ d, (Linear.new 1 1).back_input ⟨1, 1, [[2]]⟩ ⟨1, 1, [[9]]⟩
                ⟨2, 1, [[5], [7]]⟩
              = some ⟨1, 1, d⟩))
      ∧ ((⟨2, 1, [[5], [7]]⟩ : Mat).rows = 1 →
        ((Linear.without_bias 1 1).back_input ⟨1, 1, [[2]]⟩ ⟨1, 1, [[9]]⟩
              ⟨2, 1, [[5], [7]]⟩
            = Mat.mul ⟨1, 1, [[2]]⟩ (⟨2, 1, [[5], [7]]⟩ : Mat).transpose
          ∧ ∃ d, (Linear.without_bias 1 1).back_input ⟨1, 1, [[2]]⟩ ⟨1, 1, [[9]]⟩
                ⟨2, 1, [[5], [7]]⟩
              = some ⟨1, 1, d⟩))) :=
  ⟨rfl, C2_linear_back_input 1 1 ⟨1, 1, [[2]]⟩ ⟨1, 1, [[9]]⟩ ⟨2, 1, [[5], [7]]⟩ rfl⟩

theorem C3_linear_back_params_witness :
    ((⟨1, 1, [[3]]⟩ : Mat).rows = (⟨1, 1, [[2]]⟩ : Mat).rows)
    ∧ (((Linear.new 1 1).back_params ⟨1, 1, [[2]]⟩ ⟨1, 1, [[3]]⟩ ⟨2, 1, [[0], [0]]⟩
          = ((⟨1, 1, [[3]]⟩ : Mat).hcat (Mat.ones 1 1)).bind
              (fun a => a.transpose.mul ⟨1, 1, [[2]]⟩))
      ∧ (∃ d, (Linear.new 1 1).back_params ⟨1, 1, [[2]]⟩ ⟨1, 1, [[3]]⟩ ⟨2, 1, [[0], [0]]⟩
          = some ⟨1 + 1, 1, d⟩)
      ∧ ((⟨1, 1, [[3]]⟩ : Mat).cols = 1 → (⟨1, 1, [[2]]⟩ : Mat).cols = 1 →
          ∃ r, (Linear.new 1 1).back_params ⟨1, 1, [[2]]⟩ ⟨1, 1, [[3]]⟩
                ⟨2, 1, [[0], [0]]⟩ = some r
            ∧ (r.rows, r.cols) = (Linear.new 1 1).param_shape)
      ∧ ((Linear.without_bias 1 1).back_params ⟨1, 1, [[2]]⟩ ⟨1, 1, [[3]]⟩
            ⟨2, 1, [[0], [0]]⟩
          = (⟨1, 1, [[3]]⟩ : Mat).transpose.mul ⟨1, 1, [[2]]⟩)
      ∧ (∃ d, (Linear.without_bias 1 1).back_params ⟨1, 1, [[2]]⟩ ⟨1, 1, [[3]]⟩
            ⟨2, 1, [[0], [0]]⟩ = some ⟨1, 1, d⟩)
      ∧ ((⟨1, 1, [[3]]⟩ : Mat).cols = 1 → (⟨1, 1, [[2]]⟩ : Mat).cols = 1 →
          ∃ r, (Linear.without_bias 1 1).back_params ⟨1, 1, [[2]]⟩ ⟨1, 1, [[3]]⟩
                ⟨2, 1, [[0], [0]]⟩ = some r
            ∧ (r.rows, r.cols) = (Linear.without_bias 1 1).param_shape)
      ∧ (∀ (l : Linear) (g' i' p' : Mat), i'.rows ≠ g'.rows →
          l.back_params g' i' p' = none)) :=
  ⟨rfl, C3_linear_back_params 1 1 ⟨1, 1, [[2]]⟩ ⟨1, 1, [[3]]⟩ ⟨2, 1, [[0], [0]]⟩ rfl⟩

theorem C4_activation_forward_back_input_witness :
    Mat.WF ⟨1, 1, [[3]]⟩ ∧ Mat.WF ⟨1, 1, [[2]]⟩
    ∧ ((⟨1, 1, [[2]]⟩ : Mat).rows = (⟨1, 1, [[3]]⟩ : Mat).rows)
    ∧ ((⟨1, 1, [[2]]⟩ : Mat).cols = (⟨1, 1, [[3]]⟩ : Mat).cols)
    ∧ ((∀ p₁ p₂ : Mat,
          (ActivationFunc.mk (fun x => x * x) (fun x => 2 * x)).forward
              ⟨1, 1, [[3]]⟩ p₁
            = (ActivationFunc.mk (fun x => x * x) (fun x => 2 * x)).forward
              ⟨1, 1, [[3]]⟩ p₂)
      ∧ (ActivationFunc.mk (fun x => x * x) (fun x => 2 * x)).forward
            ⟨1, 1, [[3]]⟩ ⟨0, 0, []⟩
          = (⟨1, 1, [[3]]⟩ : Mat).apply (fun x => x * x)
      ∧ ((ActivationFunc.mk (fun x => x * x) (fun x => 2 * x)).forward
            ⟨1, 1, [[3]]⟩ ⟨0, 0, []⟩).rows = 1
      ∧ ((ActivationFunc.mk (fun x => x * x) (fun x => 2 * x)).forward
            ⟨1, 1, [[3]]⟩ ⟨0, 0, []⟩).cols = 1
      ∧ (∀ i j : Nat, i < 1 → j < 1 →
          ((ActivationFunc.mk (fun x => x * x) (fun x => 2 * x)).forward
              ⟨1, 1, [[3]]⟩ ⟨0, 0, []⟩).entry i j
            = (⟨1, 1, [[3]]⟩ : Mat).entry i j * (⟨1, 1, [[3]]⟩ : Mat).entry i j)
      ∧ (ActivationFunc.mk (fun x => x * x) (fun x => 2 * x)).back_input
            ⟨1, 1, [[2]]⟩ ⟨1, 1, [[3]]⟩ ⟨0, 0, []⟩
          = (⟨1, 1, [[2]]⟩ : Mat).elemul
              ((⟨1, 1, [[3]]⟩ : Mat).apply (fun x => 2 * x))
      ∧ (∃ r, (ActivationFunc.mk (fun x => x * x) (fun x => 2 * x)).back_input
              ⟨1, 1, [[2]]⟩ ⟨1, 1, [[3]]⟩ ⟨0, 0, []⟩ = some r
          ∧ r.rows = 1 ∧ r.cols = 1
          ∧ ∀ i j : Nat, i < 1 → j < 1 →
              r.entry i j
                = (⟨1, 1, [[2]]⟩ : Mat).entry i j
                    * (2 * (⟨1, 1, [[3]]⟩ : Mat).entry i j))) :=
  ⟨by decide, by decide, rfl, rfl,
    C4_activation_forward_back_input
      (ActivationFunc.mk (fun x => x * x) (fun x => 2 * x))
      ⟨1, 1, [[2]]⟩ ⟨1, 1, [[3]]⟩ ⟨0, 0, []⟩ (by decide) (by decide) rfl rfl⟩

theorem C6_default_params_witness :
    ((Linear.new 1 1).default_params (fun k => (k : ℝ)) 0).1.length
        = (Linear.new 1 1).input_size * (Linear.new 1 1).output_size
    ∧ 0 < (Linear.new 1 1).input_size * (Linear.new 1 1).output_size
    ∧ ((Linear.new 1 1).default_params (fun k => (k : ℝ)) 0).1.getD 0 0
        = 0 + (Linear.new 1 1).xavier_std * ((0 + 0 : Nat) : ℝ) :=
  ⟨(C6_default_params (Linear.new 1 1) (fun k => (k : ℝ)) 0).1, by decide,
   (C6_default_params (Linear.new 1 1) (fun k => (k : ℝ)) 0).2.2.2.1 0 (by decide)⟩

theorem C9_amended_thread_local_rng_witness :
    (∀ k : Nat, k < (Linear.new 0 1).input_size * (Linear.new 0 1).output_size →
        (fun _ : Nat => (0 : ℝ)) (0 + k) = (fun _ : Nat => (0 : ℝ)) (5 + k))
    ∧ (((Linear.new 0 1).default_params (fun _ => (0 : ℝ)) 0).1
        = ((Linear.new 0 1).default_params (fun _ => (0 : ℝ)) 5).1
      ∧ ((Linear.new 0 1).default_params (fun _ => (0 : ℝ)) 0).2
        = 0 + (Linear.new 0 1).input_size * (Linear.new 0 1).output_size) :=
  ⟨fun _ _ => rfl,
    C9_amended_thread_local_rng (Linear.new 0 1) (fun _ => 0) (fun _ => 0) 0 5
      (fun _ _ => rfl)⟩
